import Mathlib

/-!
Verification of the File Rename Validator script (`rename_code.py`).

Python strings are modelled as `List Char` (`Str`), so that every string
operation used by the script (split on a character, lower-casing, strip,
join, replace) is a structurally recursive, kernel-computable definition.
Pandas data frames are modelled as `List Row`; Python dicts as association
lists with propositional-equality lookup.
-/

namespace RenameValidator

/-- Python `str` modelled as a list of characters. -/
abbrev Str := List Char

/-- Python `s.lower()` (ASCII case folding, as used on the placeholder tokens). -/
def lowerStr (s : Str) : Str := s.map Char.toLower

/-- Python `s.strip()`: drop leading and trailing whitespace. -/
def stripStr (s : Str) : Str :=
  ((s.dropWhile Char.isWhitespace).reverse.dropWhile Char.isWhitespace).reverse

/-- Python `s.strip(c)` for a single character `c`. -/
def stripCharEnds (c : Char) (s : Str) : Str :=
  ((s.dropWhile (fun ch => ch = c)).reverse.dropWhile (fun ch => ch = c)).reverse

/-- Python `s.split(sep)` for a one-character separator: keeps empty segments,
`"".split(sep) = [""]`. -/
def splitOnChar (sep : Char) : List Char → List (List Char)
  | [] => [[]]
  | a :: rest =>
    let r := splitOnChar sep rest
    if a = sep then [] :: r
    else (a :: r.headD []) :: r.tail

/-- Python `sep.join(parts)` for a one-character separator. -/
def joinWith (c : Char) : List Str → Str
  | [] => []
  | [s] => s
  | s :: t :: rest => s ++ c :: joinWith c (t :: rest)

/-- Python dict lookup on an association list. -/
def lookupBy {α β : Type} [DecidableEq α] (key : α) : List (α × β) → Option β
  | [] => none
  | (k, v) :: rest => if k = key then some v else lookupBy key rest

theorem splitOnChar_ne_nil (c : Char) (s : List Char) : splitOnChar c s ≠ [] := by
  cases s with
  | nil => simp [splitOnChar]
  | cons a rest =>
    simp only [splitOnChar]
    split <;> simp

theorem splitOnChar_cons (c a : Char) (rest : List Char) :
    splitOnChar c (a :: rest) =
      if a = c then [] :: splitOnChar c rest
      else (a :: (splitOnChar c rest).headD []) :: (splitOnChar c rest).tail := rfl

/-- Segments produced by `splitOnChar` never contain the separator. -/
theorem not_sep_mem_of_mem_splitOnChar (c : Char) (s : List Char) :
    ∀ p ∈ splitOnChar c s, c ∉ p := by
  induction s with
  | nil =>
    intro p hp
    simp [splitOnChar] at hp
    simp [hp]
  | cons a rest ih =>
    intro p hp
    rw [splitOnChar_cons] at hp
    by_cases hac : a = c
    · rw [if_pos hac] at hp
      rcases List.mem_cons.mp hp with h | h
      · simp [h]
      · exact ih p h
    · rw [if_neg hac] at hp
      cases hr : splitOnChar c rest with
      | nil => exact absurd hr (splitOnChar_ne_nil c rest)
      | cons q qs =>
        rw [hr] at hp
        rcases List.mem_cons.mp hp with h | h
        · subst h
          intro hmem
          rcases List.mem_cons.mp hmem with h1 | h1
          · exact hac h1.symm
          · exact ih q (by simp [hr]) h1
        · exact ih p (by simp only [hr, List.tail_cons] at h ⊢; exact List.mem_cons_of_mem q h)

/-- A separator-free string splits into the singleton list of itself. -/
theorem splitOnChar_of_not_mem (c : Char) (s : List Char) (h : c ∉ s) :
    splitOnChar c s = [s] := by
  induction s with
  | nil => rfl
  | cons a rest ih =>
    have hac : a ≠ c := fun hh => h (hh ▸ List.mem_cons_self a rest)
    have hrest : c ∉ rest := fun hh => h (List.mem_cons_of_mem a hh)
    rw [splitOnChar_cons, if_neg hac, ih hrest]
    rfl

theorem splitOnChar_append_sep (c : Char) (a t : List Char) (h : c ∉ a) :
    splitOnChar c (a ++ c :: t) = a :: splitOnChar c t := by
  induction a with
  | nil => simp [splitOnChar_cons]
  | cons x a' ih =>
    have hxc : x ≠ c := fun hh => h (hh ▸ List.mem_cons_self x a')
    have ha' : c ∉ a' := fun hh => h (List.mem_cons_of_mem x hh)
    rw [List.cons_append, splitOnChar_cons, if_neg hxc, ih ha']
    rfl

/-- Splitting a join of separator-free parts recovers the parts. -/
theorem splitOnChar_joinWith (c : Char) (l : List Str) (hne : l ≠ [])
    (hfree : ∀ p ∈ l, c ∉ p) : splitOnChar c (joinWith c l) = l := by
  induction l with
  | nil => exact absurd rfl hne
  | cons s rest ih =>
    cases rest with
    | nil =>
      simp only [joinWith]
      exact splitOnChar_of_not_mem c s (hfree s (List.mem_cons_self s []))
    | cons t rest' =>
      have hstep : joinWith c (s :: t :: rest') = s ++ c :: joinWith c (t :: rest') := rfl
      rw [hstep, splitOnChar_append_sep c s _ (hfree s (List.mem_cons_self s _)),
        ih (by simp) (fun p hp => hfree p (List.mem_cons_of_mem s hp))]

theorem getD_append_replicate {α : Type} (l : List α) (k : Nat) (d : α) (i : Nat) :
    (l ++ List.replicate k d).getD i d = l.getD i d := by
  induction l generalizing i with
  | nil =>
    simp only [List.nil_append, List.getD]
    induction k generalizing i with
    | zero => simp
    | succ k ihk =>
      cases i with
      | zero => simp [List.replicate]
      | succ j => simp only [List.replicate]; exact ihk j
  | cons a l ihl =>
    cases i with
    | zero => rfl
    | succ j => simpa using ihl j

theorem getD_mem_or {α : Type} (l : List α) (i : Nat) (d : α) :
    l.getD i d ∈ l ∨ l.getD i d = d := by
  induction l generalizing i with
  | nil => simp
  | cons a l ih =>
    cases i with
    | zero => simp
    | succ j =>
      rcases ih j with h | h
      · exact Or.inl (List.mem_cons_of_mem a (by simpa using h))
      · simp only [List.getD_cons_succ]
        exact Or.inr h

/-!  ## Data model: one spreadsheet row (source line 439, `required_cols`). -/

/-- One record of the loaded table, with the seven required columns. -/
structure Row where
  type : Str
  originalName : Str
  proposedNewName : Str
  fullPath : Str
  createdDate : Str
  timestamp : Str
  action : Str
deriving DecidableEq, Repr

instance : Inhabited Row := ⟨⟨[], [], [], [], [], [], []⟩⟩

/-!  ## C1: flagged-row detector (source lines 445-450). -/

/-- The placeholder token list of source line 446. -/
def placeholders : List Str :=
  [("Brand").data, ("Campaign").data, ("Channel").data, ("Asset").data,
   ("Format").data, ("Version").data, ("Date").data]

/-- The per-cell predicate of the `invalid_mask` lambda (source lines 447-449):
`any(ph.lower() == part.lower() for ph in placeholders for part in str(s).split("_"))`. -/
def rowIsInvalid (s : Str) : Bool :=
  placeholders.any (fun ph =>
    (splitOnChar '_' s).any (fun part => decide (lowerStr ph = lowerStr part)))

/-- `invalid_rows = df[invalid_mask].reset_index(drop=True)` (source line 450):
the rows whose `Proposed New Name` cell satisfies the mask, in table order. -/
def invalid_rows (df : List Row) : List Row :=
  df.filter (fun r => rowIsInvalid r.proposedNewName)

/-- C1: a row is in the flagged subset iff it is a table row at least one of whose
underscore-delimited `Proposed New Name` segments case-insensitively equals one of
the 7 placeholder tokens; and the flagged subset is an index-stable ordered
subsequence (a sublist) of the table. -/
theorem flagged_rows_spec (df : List Row) (r : Row) :
    (r ∈ invalid_rows df ↔
      r ∈ df ∧ ∃ part ∈ splitOnChar '_' r.proposedNewName,
        ∃ ph ∈ placeholders, lowerStr part = lowerStr ph) ∧
    (invalid_rows df).Sublist df := by
  constructor
  · rw [invalid_rows, List.mem_filter]
    constructor
    · rintro ⟨hmem, hflag⟩
      refine ⟨hmem, ?_⟩
      rw [rowIsInvalid, List.any_eq_true] at hflag
      obtain ⟨ph, hph, hinner⟩ := hflag
      rw [List.any_eq_true] at hinner
      obtain ⟨part, hpart, heq⟩ := hinner
      exact ⟨part, hpart, ph, hph, (of_decide_eq_true heq).symm⟩
    · rintro ⟨hmem, part, hpart, ph, hph, heq⟩
      refine ⟨hmem, ?_⟩
      rw [rowIsInvalid, List.any_eq_true]
      exact ⟨ph, hph, List.any_eq_true.mpr ⟨part, hpart, decide_eq_true heq.symm⟩⟩
  · exact List.filter_sublist df

/-!  ## C2: the Drive-service construction step calls an unbound name
(source line 429 calls `build_drive_service`, but only
`build_drive_service_from_secrets` is defined at line 193). -/

/-- Every name bound at module level before line 429 is reached: the module's
`def` statements (lines 20, 26, 42, 79, 101, 193, 203, 223, 242, 263, 365, 386),
the names introduced by the `import` statements at lines 1-14, and the
module-level assignments executed before line 429. -/
def moduleBoundNames : List String :=
  ["get_supabase_client", "get_user_id", "save_state_to_supabase",
   "load_state_from_supabase", "auto_refresh_script",
   "build_drive_service_from_secrets", "find_folder_id", "get_file_in_folder",
   "download_file_to_temp", "get_file_from_drive",
   "save_pending_changes_to_excel", "upload_to_supabase",
   "st", "pd", "tempfile", "service_account", "build", "MediaIoBaseDownload",
   "json", "io", "os", "datetime", "time", "hashlib", "create_client", "Client",
   "SUPABASE_URL", "SUPABASE_KEY", "credentials_file", "excel_file",
   "current_time"]

/-- Outcome of one run of the guarded main block (lines 425-434). -/
inductive MainRun where
  | haltedAuthError
  | processing
deriving DecidableEq, Repr

/-- The Drive-service construction step (lines 427-432): when the stored service
is `None`, Python resolves the name `build_drive_service`; an unbound name
raises `NameError`, which the `except` branch turns into `st.error` + `st.stop()`.
The service credentials are irrelevant to the outcome. -/
def driveServiceInit (_credentials : String) (stored : Option Unit) :
    MainRun × Option Unit :=
  match stored with
  | some d => (MainRun.processing, some d)
  | none =>
    if moduleBoundNames.contains "build_drive_service" then
      (MainRun.processing, some ())
    else (MainRun.haltedAuthError, none)

/-- `st.session_state.drive_service` starts as `None` (line 143). -/
def initialDriveService : Option Unit := none

/-- The stored service after `n+1` consecutive runs of the main block, starting
from the initial session state. -/
def iterRuns (credentials : String) : Nat → MainRun × Option Unit
  | 0 => driveServiceInit credentials initialDriveService
  | n + 1 => driveServiceInit credentials (iterRuns credentials n).2

/-- Number of table rows a run processes: a run halted by the auth-error branch
stops (`st.stop()`, line 432) before any row is read. -/
def rowsProcessed : MainRun → Nat
  | MainRun.haltedAuthError => 0
  | MainRun.processing => 1

/-- C2: `build_drive_service` is unbound while `build_drive_service_from_secrets`
is bound, so for every credential input every run of the main block (first and
all later ones) takes the auth-error branch, never stores a service, and
processes no row. -/
theorem drive_service_init_always_fails (credentials : String) (n : Nat) :
    moduleBoundNames.contains "build_drive_service" = false ∧
    moduleBoundNames.contains "build_drive_service_from_secrets" = true ∧
    iterRuns credentials n = (MainRun.haltedAuthError, none) ∧
    rowsProcessed (iterRuns credentials n).1 = 0 := by
  have hbase : driveServiceInit credentials none = (MainRun.haltedAuthError, none) := by
    simp [driveServiceInit, moduleBoundNames]
  have hiter : iterRuns credentials n = (MainRun.haltedAuthError, none) := by
    induction n with
    | zero => simpa [iterRuns, initialDriveService] using hbase
    | succ k ih => rw [iterRuns, ih]; exact hbase
  exact ⟨by simp [moduleBoundNames], by simp [moduleBoundNames], hiter,
    by rw [hiter]; rfl⟩

/-!  ## C7: Save Change / Reset handlers (source lines 550-563). -/

/-- The pending-change buffer: a Python dict from identity key to replacement
name, modelled as an association list in insertion order. -/
abbrev Pending := List (Str × Str)

/-- Python `pending[k] = v`: overwrite in place if the key exists, else append. -/
def pendingInsert (p : Pending) (k v : Str) : Pending :=
  if (lookupBy k p).isSome then
    p.map (fun kv => if kv.1 = k then (k, v) else kv)
  else p ++ [(k, v)]

/-- Python `del pending[k]` (under the guard `k in pending`). -/
def pendingErase (p : Pending) (k : Str) : Pending :=
  p.filter (fun kv => decide (kv.1 ≠ k))

/-- The Save Change handler (lines 552-556): stages the candidate under the
row's `Full Path` key; the table itself is untouched. -/
def saveChangeHandler (df : List Row) (p : Pending) (row : Row)
    (newProposed : Str) : List Row × Pending :=
  (df, pendingInsert p row.fullPath newProposed)

/-- The Reset handler (lines 559-563): deletes the row's pending entry when
present; the table itself is untouched. -/
def resetHandler (df : List Row) (p : Pending) (row : Row) : List Row × Pending :=
  (df, if (lookupBy row.fullPath p).isSome then pendingErase p row.fullPath else p)

theorem lookupBy_mapReplace (k v : Str) (p : Pending) :
    lookupBy k (p.map (fun kv => if kv.1 = k then (k, v) else kv)) =
      (lookupBy k p).map (fun _ => v) := by
  induction p with
  | nil => rfl
  | cons kv rest ih =>
    obtain ⟨k0, v0⟩ := kv
    by_cases h : k0 = k
    · subst h
      have h1 : List.map (fun kv => if kv.1 = k0 then (k0, v) else kv) ((k0, v0) :: rest)
          = (k0, v) :: List.map (fun kv => if kv.1 = k0 then (k0, v) else kv) rest := by
        rw [List.map_cons]
        congr 1
        exact if_pos rfl
      rw [h1, lookupBy, if_pos rfl, lookupBy, if_pos rfl]
      rfl
    · have h1 : List.map (fun kv => if kv.1 = k then (k, v) else kv) ((k0, v0) :: rest)
          = (k0, v0) :: List.map (fun kv => if kv.1 = k then (k, v) else kv) rest := by
        rw [List.map_cons]
        congr 1
        exact if_neg h
      rw [h1, lookupBy, if_neg h, lookupBy, if_neg h, ih]

theorem lookupBy_append_of_none {α β : Type} [DecidableEq α] (k : α)
    (p q : List (α × β)) (h : lookupBy k p = none) :
    lookupBy k (p ++ q) = lookupBy k q := by
  induction p with
  | nil => rfl
  | cons kv rest ih =>
    obtain ⟨k0, v0⟩ := kv
    by_cases hk : k0 = k
    · simp [lookupBy, hk] at h
    · rw [lookupBy, if_neg hk] at h
      rw [List.cons_append, lookupBy, if_neg hk]
      exact ih h

theorem lookupBy_pendingInsert_self (p : Pending) (k v : Str) :
    lookupBy k (pendingInsert p k v) = some v := by
  rw [pendingInsert]
  cases h : lookupBy k p with
  | some w => simp [h, lookupBy_mapReplace]
  | none => simp [h, lookupBy_append_of_none k p _ h, lookupBy]

theorem lookupBy_pendingErase_self (p : Pending) (k : Str) :
    lookupBy k (pendingErase p k) = none := by
  induction p with
  | nil => rfl
  | cons kv rest ih =>
    obtain ⟨k0, v0⟩ := kv
    by_cases h : k0 = k
    · simpa [pendingErase, h] using ih
    · simp only [pendingErase, List.filter_cons] at ih ⊢
      rw [if_pos (by simpa using h)]
      rw [lookupBy, if_neg h]
      exact ih

/-- C7: saving an edit for row R and then resetting R leaves the table exactly
as it was after both handler calls (the stored `Proposed New Name` can change
only at flush time), and removes R's entry from the pending buffer. -/
theorem save_then_reset_frame (df : List Row) (p : Pending) (row : Row)
    (v : Str) :
    (saveChangeHandler df p row v).1 = df ∧
    (resetHandler (saveChangeHandler df p row v).1
        (saveChangeHandler df p row v).2 row).1 = df ∧
    lookupBy row.fullPath
      (resetHandler (saveChangeHandler df p row v).1
        (saveChangeHandler df p row v).2 row).2 = none := by
  refine ⟨rfl, rfl, ?_⟩
  simp only [saveChangeHandler, resetHandler]
  rw [lookupBy_pendingInsert_self]
  simp only [Option.isSome_some, if_pos]
  exact lookupBy_pendingErase_self _ _

/-!  ## C8: Previous / Next navigation (source lines 472-482). -/

/-- The Previous handler body (line 474): decrement only when `index > 0`. -/
def prevHandler (index : Int) : Int := if 0 < index then index - 1 else index

/-- The Next handler body (line 479): increment only when
`index < len(invalid_rows) - 1`. -/
def nextHandler (flaggedCount : Nat) (index : Int) : Int :=
  if index < (flaggedCount : Int) - 1 then index + 1 else index

/-- C8: with at least one flagged row and an in-range index, Previous and Next
move the index by -1 / +1 clamped to `[0, n-1]`: both results stay in range,
Previous at 0 and Next at n-1 are no-ops, and otherwise the index moves by
exactly one. -/
theorem navigation_clamped (n : Nat) (i : Int) (hn : 1 ≤ n) (h0 : 0 ≤ i)
    (hi : i ≤ (n : Int) - 1) :
    (0 ≤ prevHandler i ∧ prevHandler i ≤ (n : Int) - 1) ∧
    (0 ≤ nextHandler n i ∧ nextHandler n i ≤ (n : Int) - 1) ∧
    (i = 0 → prevHandler i = i) ∧
    (i = (n : Int) - 1 → nextHandler n i = i) ∧
    (0 < i → prevHandler i = i - 1) ∧
    (i < (n : Int) - 1 → nextHandler n i = i + 1) := by
  have hn' : (1 : Int) ≤ (n : Int) := by exact_mod_cast hn
  unfold prevHandler nextHandler
  refine ⟨⟨?_, ?_⟩, ⟨?_, ?_⟩, ?_, ?_, ?_, ?_⟩ <;> split <;> omega

/-- Witness for C8 at `n = 3`, `i = 2` (the last flagged index): Next is a
no-op there. -/
theorem navigation_clamped_witness :
    (1 ≤ 3 ∧ (2 : Int) ≤ (3 : Int) - 1) ∧ nextHandler 3 2 = 2 :=
  ⟨⟨by decide, by decide⟩,
    (navigation_clamped 3 2 (by decide) (by decide) (by decide)).2.2.2.1 (by decide)⟩

/-!  ## C10: upload button handler (source lines 649-654) and
`upload_to_supabase` (lines 386-420). -/

/-- A remote storage-bucket call made by `upload_to_supabase`. -/
inductive StorageCall where
  | removeObject (name : Str)
  | uploadObject (name : Str)
deriving DecidableEq, Repr

/-- Python `os.path.basename`: the part after the last slash. -/
def basename (p : Str) : Str := (splitOnChar '/' p).getLastD p

/-- The remote calls of `upload_to_supabase(file_path)` (lines 392-411): first
a removal of any existing object of the same name, then the upload. -/
def upload_to_supabase_calls (filePath : Str) : List StorageCall :=
  [StorageCall.removeObject (basename filePath),
   StorageCall.uploadObject (basename filePath)]

/-- The upload button handler (lines 649-654): reads
`st.session_state.get("last_saved_file", None)` and only calls
`upload_to_supabase` when the value is truthy and the file exists on disk;
otherwise it shows a warning. Returns the list of remote storage calls made
and whether the warning was shown. -/
def uploadButtonHandler (fileOnDisk : Str → Bool) (lastSaved : Option Str) :
    List StorageCall × Bool :=
  match lastSaved with
  | none => ([], true)
  | some p =>
    if !p.isEmpty && fileOnDisk p then (upload_to_supabase_calls p, false)
    else ([], true)

/-- C10: when no spreadsheet has been flushed in the session (no recorded
last-saved file, or the recorded path is empty or absent from disk), the upload
button shows the warning and makes no remote removal or upload call. -/
theorem upload_without_flush_warns (fileOnDisk : Str → Bool)
    (lastSaved : Option Str)
    (h : lastSaved = none ∨
      ∀ p, lastSaved = some p → p.isEmpty = true ∨ fileOnDisk p = false) :
    uploadButtonHandler fileOnDisk lastSaved = ([], true) := by
  cases lastSaved with
  | none => rfl
  | some p =>
    rcases h with h | h
    · exact absurd h (by simp)
    · rcases h p rfl with h1 | h1 <;>
        simp [uploadButtonHandler, h1]

/-- Witness for C10: a recorded filename that is not on disk triggers the
warning branch with no storage calls. -/
theorem upload_without_flush_warns_witness :
    uploadButtonHandler (fun _ => false) (some ("out.xlsx").data) = ([], true) :=
  upload_without_flush_warns (fun _ => false) (some ("out.xlsx").data)
    (Or.inr (fun p hp => by cases hp; exact Or.inr rfl))

/-!  ## C3: flush of the pending-change buffer
(`save_pending_changes_to_excel`, lines 365-384, and the Save All handler,
lines 634-637). -/

/-- `df.loc[mask, "Proposed New Name"] = new_name` on one row. -/
def setProposed (r : Row) (v : Str) : Row := { r with proposedNewName := v }

/-- One iteration of the loop at lines 368-372: match by `Full Path`, and only
when no `Full Path` cell equals the key, match by `Original Name`; every
matching row's `Proposed New Name` is overwritten. -/
def applyEntry (df : List Row) (k v : Str) : List Row :=
  if df.any (fun r => decide (r.fullPath = k)) then
    df.map (fun r => if r.fullPath = k then setProposed r v else r)
  else
    df.map (fun r => if r.originalName = k then setProposed r v else r)

/-- The whole loop of lines 368-372 over the pending dict in insertion order. -/
def applyPendingChanges (df : List Row) (pending : Pending) : List Row :=
  pending.foldl (fun acc kv => applyEntry acc kv.1 kv.2) df

/-- The Save All to Excel handler (lines 634-637): apply all pending changes,
then `st.session_state.pending_changes.clear()`. -/
def saveAllHandler (df : List Row) (pending : Pending) : List Row × Pending :=
  (applyPendingChanges df pending, [])

/-- Number of rows whose `Proposed New Name` differs between two tables. -/
def changedRowCount (dfOld dfNew : List Row) : Nat :=
  ((dfOld.zip dfNew).filter
    (fun rr => decide (rr.1.proposedNewName ≠ rr.2.proposedNewName))).length

/-- A one-row table whose single row matches neither key of the buffer. -/
def dfC3 : List Row :=
  [{ type := ("File").data, originalName := ("b").data,
     proposedNewName := ("p").data, fullPath := ("a").data,
     createdDate := [], timestamp := [], action := [] }]

/-- A pending buffer with one entry whose key matches no row. -/
def pendingC3 : Pending := [(("z").data, ("q").data)]

/-- C3 counterexample: a buffer of N = 1 entries whose key matches no row's
`Full Path` and no row's `Original Name` updates 0 rows, not exactly N = 1. -/
theorem flush_counterexample :
    changedRowCount dfC3 (applyPendingChanges dfC3 pendingC3) = 0 ∧
    pendingC3.length = 1 := by decide

theorem applyEntry_length (df : List Row) (k v : Str) :
    (applyEntry df k v).length = df.length := by
  rw [applyEntry]
  split <;> exact List.length_map df _

theorem applyPendingChanges_length (df : List Row) (pending : Pending) :
    (applyPendingChanges df pending).length = df.length := by
  induction pending generalizing df with
  | nil => rfl
  | cons kv rest ih =>
    rw [applyPendingChanges, List.foldl_cons]
    rw [show List.foldl (fun acc kv => applyEntry acc kv.1 kv.2) (applyEntry df kv.1 kv.2) rest
      = applyPendingChanges (applyEntry df kv.1 kv.2) rest from rfl]
    rw [ih, applyEntry_length]

theorem getD_map_of_lt {α β : Type} (f : α → β) (l : List α) (i : Nat)
    (d : α) (d2 : β) (h : i < l.length) :
    (l.map f).getD i d2 = f (l.getD i d) := by
  induction l generalizing i with
  | nil => simp at h
  | cons a l ih =>
    cases i with
    | zero => rfl
    | succ j =>
      simp only [List.map_cons, List.getD_cons_succ]
      exact ih j (by simpa using h)

theorem applyEntry_getD (df : List Row) (k v : Str) (i : Nat)
    (h : i < df.length) :
    (applyEntry df k v).getD i default =
      (if df.any (fun r => decide (r.fullPath = k)) then
        (if (df.getD i default).fullPath = k then setProposed (df.getD i default) v
         else df.getD i default)
       else
        (if (df.getD i default).originalName = k then setProposed (df.getD i default) v
         else df.getD i default)) := by
  rw [applyEntry]
  split <;> exact getD_map_of_lt _ df i default default h

/-- All columns but `Proposed New Name` survive one entry application. -/
theorem applyEntry_frame (df : List Row) (k v : Str) (i : Nat)
    (h : i < df.length) :
    ((applyEntry df k v).getD i default).type = (df.getD i default).type ∧
    ((applyEntry df k v).getD i default).originalName = (df.getD i default).originalName ∧
    ((applyEntry df k v).getD i default).fullPath = (df.getD i default).fullPath ∧
    ((applyEntry df k v).getD i default).createdDate = (df.getD i default).createdDate ∧
    ((applyEntry df k v).getD i default).timestamp = (df.getD i default).timestamp ∧
    ((applyEntry df k v).getD i default).action = (df.getD i default).action := by
  rw [applyEntry_getD df k v i h]
  split <;> split <;> simp [setProposed]

/-- A row matching neither side of an entry's key is untouched by it. -/
theorem applyEntry_untouched (df : List Row) (k v : Str) (i : Nat)
    (h : i < df.length) (hfp : (df.getD i default).fullPath ≠ k)
    (hon : (df.getD i default).originalName ≠ k) :
    (applyEntry df k v).getD i default = df.getD i default := by
  rw [applyEntry_getD df k v i h]
  split <;> simp [hfp, hon]

/-- A changed row got its new name from some entry whose key matched the row's
`Full Path` or `Original Name`. -/
theorem applyEntry_changed (df : List Row) (k v : Str) (i : Nat)
    (h : i < df.length) :
    (applyEntry df k v).getD i default = df.getD i default ∨
    ((applyEntry df k v).getD i default = setProposed (df.getD i default) v ∧
      ((df.getD i default).fullPath = k ∨ (df.getD i default).originalName = k)) := by
  rw [applyEntry_getD df k v i h]
  split
  · split
    · rename_i hm
      exact Or.inr ⟨rfl, Or.inl hm⟩
    · exact Or.inl rfl
  · split
    · rename_i hm
      exact Or.inr ⟨rfl, Or.inr hm⟩
    · exact Or.inl rfl

/-- Whether the entry keyed `k` selects row `r`: by `Full Path` equality when
some row of the table matches on `Full Path`, else by `Original Name` equality
— exactly the mask computation of lines 369-371. -/
def matchesEntry (df : List Row) (k : Str) (r : Row) : Bool :=
  if df.any (fun r2 => decide (r2.fullPath = k)) then decide (r.fullPath = k)
  else decide (r.originalName = k)

/-- The `Proposed New Name` a row ends up with after the flush loop: the
buffered entries are applied in order and every entry whose key matches the
row overwrites the name, so the last matching entry wins; with no matching
entry the name is unchanged. -/
def finalName (df : List Row) (pending : Pending) (r : Row) : Str :=
  pending.foldl (fun cur kv => if matchesEntry df kv.1 r then kv.2 else cur)
    r.proposedNewName

theorem setProposed_setProposed (r : Row) (v w : Str) :
    setProposed (setProposed r v) w = setProposed r w := rfl

/-- One entry application, phrased through `matchesEntry`: every row the key
matches gets the entry's value, every other row is untouched. -/
theorem applyEntry_getD_matches (df : List Row) (k v : Str) (i : Nat)
    (h : i < df.length) :
    (applyEntry df k v).getD i default =
      (if matchesEntry df k (df.getD i default) then
        setProposed (df.getD i default) v
       else df.getD i default) := by
  rw [applyEntry_getD df k v i h, matchesEntry]
  by_cases ha : df.any (fun r2 => decide (r2.fullPath = k)) = true
  · rw [if_pos ha, if_pos ha]
    by_cases hf : (df.getD i default).fullPath = k
    · rw [if_pos hf, if_pos (decide_eq_true hf)]
    · rw [if_neg hf, if_neg (fun hh => hf (of_decide_eq_true hh))]
  · rw [if_neg ha, if_neg ha]
    by_cases ho : (df.getD i default).originalName = k
    · rw [if_pos ho, if_pos (decide_eq_true ho)]
    · rw [if_neg ho, if_neg (fun hh => ho (of_decide_eq_true hh))]

/-- Applying an entry never changes which rows match a key on `Full Path`. -/
theorem applyEntry_any_fullPath (df : List Row) (k0 v0 k : Str) :
    (applyEntry df k0 v0).any (fun r => decide (r.fullPath = k)) =
      df.any (fun r => decide (r.fullPath = k)) := by
  rw [applyEntry]
  split <;>
    (rw [List.any_map]
     congr 1
     funext r
     simp only [Function.comp_apply]
     split <;> rfl)

theorem matchesEntry_congr (df1 df2 : List Row) (k : Str) (r1 r2 : Row)
    (hany : df2.any (fun r => decide (r.fullPath = k)) =
      df1.any (fun r => decide (r.fullPath = k)))
    (hf : r2.fullPath = r1.fullPath) (ho : r2.originalName = r1.originalName) :
    matchesEntry df2 k r2 = matchesEntry df1 k r1 := by
  rw [matchesEntry, matchesEntry, hany, hf, ho]

theorem foldl_ifMatch_congr (rest : Pending) (df1 df2 : List Row)
    (r1 r2 : Row) (s : Str)
    (hm : ∀ k, matchesEntry df2 k r2 = matchesEntry df1 k r1) :
    rest.foldl (fun cur kv => if matchesEntry df2 kv.1 r2 then kv.2 else cur) s =
      rest.foldl (fun cur kv => if matchesEntry df1 kv.1 r1 then kv.2 else cur) s := by
  induction rest generalizing s with
  | nil => rfl
  | cons kv rest ih =>
    rw [List.foldl_cons, List.foldl_cons, hm kv.1]
    exact ih _

/-- The complete row-level characterization of the flush loop: position `i` of
the output is the input row with its `Proposed New Name` replaced by the fold
of all matching entries' values. -/
theorem applyPendingChanges_getD (df : List Row) (pending : Pending) (i : Nat)
    (h : i < df.length) :
    (applyPendingChanges df pending).getD i default =
      setProposed (df.getD i default)
        (finalName df pending (df.getD i default)) := by
  induction pending generalizing df with
  | nil => rfl
  | cons kv rest ih =>
    have hstep : applyPendingChanges df (kv :: rest)
        = applyPendingChanges (applyEntry df kv.1 kv.2) rest := rfl
    have hlen : i < (applyEntry df kv.1 kv.2).length := by
      rw [applyEntry_length]; exact h
    rw [hstep, ih (applyEntry df kv.1 kv.2) hlen,
      applyEntry_getD_matches df kv.1 kv.2 i h]
    have hmcongr : ∀ r2 : Row, r2.fullPath = (df.getD i default).fullPath →
        r2.originalName = (df.getD i default).originalName →
        ∀ k, matchesEntry (applyEntry df kv.1 kv.2) k r2 =
          matchesEntry df k (df.getD i default) := fun r2 hf ho k =>
      matchesEntry_congr df (applyEntry df kv.1 kv.2) k (df.getD i default) r2
        (applyEntry_any_fullPath df kv.1 kv.2 k) hf ho
    by_cases hm : matchesEntry df kv.1 (df.getD i default) = true
    · rw [if_pos hm, setProposed_setProposed]
      simp only [finalName, List.foldl_cons]
      rw [if_pos hm]
      exact congrArg (setProposed _)
        (foldl_ifMatch_congr rest df (applyEntry df kv.1 kv.2)
          (df.getD i default) (setProposed (df.getD i default) kv.2) kv.2
          (hmcongr (setProposed (df.getD i default) kv.2) rfl rfl))
    · rw [if_neg hm]
      simp only [finalName, List.foldl_cons]
      rw [if_neg hm]
      exact congrArg (setProposed _)
        (foldl_ifMatch_congr rest df (applyEntry df kv.1 kv.2)
          (df.getD i default) (df.getD i default) _
          (hmcongr (df.getD i default) rfl rfl))

/-- C3, amended: flushing empties the pending buffer and keeps the table's
length; each entry is applied to every row its key matches — by `Full Path`
when some row's `Full Path` equals the key, else by `Original Name`, so
possibly zero or several rows per entry, and the number of updated rows need
not equal the number of entries. Row-level: each output row is the input row
with its `Proposed New Name` replaced by the fold of all matching entries'
values (the last matching entry wins); for a one-entry buffer a matched row
receives exactly the entry's value and an unmatched row is returned verbatim.
All columns except `Proposed New Name` are unchanged, a row whose `Full Path`
and `Original Name` both differ from every buffered key is entirely unchanged,
and any change writes the value of some buffered entry whose key equals the
row's `Full Path` or `Original Name`. -/
theorem flush_amended (df : List Row) (pending : Pending) (i : Nat)
    (h : i < df.length) :
    (saveAllHandler df pending).2 = [] ∧
    (applyPendingChanges df pending).length = df.length ∧
    ((applyPendingChanges df pending).getD i default =
      setProposed (df.getD i default)
        (finalName df pending (df.getD i default))) ∧
    (∀ k v, (applyPendingChanges df [(k, v)]).getD i default =
      (if matchesEntry df k (df.getD i default) then
        setProposed (df.getD i default) v
       else df.getD i default)) ∧
    (((applyPendingChanges df pending).getD i default).type = (df.getD i default).type ∧
     ((applyPendingChanges df pending).getD i default).originalName = (df.getD i default).originalName ∧
     ((applyPendingChanges df pending).getD i default).fullPath = (df.getD i default).fullPath ∧
     ((applyPendingChanges df pending).getD i default).createdDate = (df.getD i default).createdDate ∧
     ((applyPendingChanges df pending).getD i default).timestamp = (df.getD i default).timestamp ∧
     ((applyPendingChanges df pending).getD i default).action = (df.getD i default).action) ∧
    ((∀ kv ∈ pending, (df.getD i default).fullPath ≠ kv.1 ∧
        (df.getD i default).originalName ≠ kv.1) →
      (applyPendingChanges df pending).getD i default = df.getD i default) ∧
    ((applyPendingChanges df pending).getD i default = df.getD i default ∨
      ∃ kv ∈ pending,
        ((applyPendingChanges df pending).getD i default).proposedNewName = kv.2 ∧
        ((df.getD i default).fullPath = kv.1 ∨ (df.getD i default).originalName = kv.1)) := by
  refine ⟨rfl, applyPendingChanges_length df pending,
    applyPendingChanges_getD df pending i h,
    fun k v => applyEntry_getD_matches df k v i h, ?_⟩
  induction pending generalizing df with
  | nil => exact ⟨⟨rfl, rfl, rfl, rfl, rfl, rfl⟩, fun _ => rfl, Or.inl rfl⟩
  | cons kv rest ih =>
    have hstep : applyPendingChanges df (kv :: rest)
        = applyPendingChanges (applyEntry df kv.1 kv.2) rest := rfl
    have hlen : i < (applyEntry df kv.1 kv.2).length := by
      rw [applyEntry_length]; exact h
    obtain ⟨ihframe, ihuntouched, ihchanged⟩ := ih (applyEntry df kv.1 kv.2) hlen
    have eframe := applyEntry_frame df kv.1 kv.2 i h
    refine ⟨?_, ?_, ?_⟩
    · rw [hstep]
      exact ⟨ihframe.1.trans eframe.1,
        ihframe.2.1.trans eframe.2.1,
        ihframe.2.2.1.trans eframe.2.2.1,
        ihframe.2.2.2.1.trans eframe.2.2.2.1,
        ihframe.2.2.2.2.1.trans eframe.2.2.2.2.1,
        ihframe.2.2.2.2.2.trans eframe.2.2.2.2.2⟩
    · intro hall
      obtain ⟨h1, _⟩ := hall kv (List.mem_cons_self kv rest)
      have huntouch : (applyEntry df kv.1 kv.2).getD i default = df.getD i default :=
        applyEntry_untouched df kv.1 kv.2 i h h1
          (hall kv (List.mem_cons_self kv rest)).2
      rw [hstep]
      rw [show (applyPendingChanges (applyEntry df kv.1 kv.2) rest).getD i default
          = (applyEntry df kv.1 kv.2).getD i default from
        ihuntouched (fun kv2 hkv2 => by
          rw [huntouch]
          exact hall kv2 (List.mem_cons_of_mem kv hkv2))]
      exact huntouch
    · rw [hstep]
      rcases applyEntry_changed df kv.1 kv.2 i h with hsame | ⟨hset, hmatch⟩
      · rcases ihchanged with h2 | ⟨kv2, hkv2, hname, hside⟩
        · exact Or.inl (h2.trans hsame)
        · refine Or.inr ⟨kv2, List.mem_cons_of_mem kv hkv2, hname, ?_⟩
          rw [hsame] at hside
          exact hside
      · rcases ihchanged with h2 | ⟨kv2, hkv2, hname, hside⟩
        · refine Or.inr ⟨kv, List.mem_cons_self kv rest, ?_, hmatch⟩
          rw [h2, hset]
          rfl
        · refine Or.inr ⟨kv2, List.mem_cons_of_mem kv hkv2, hname, ?_⟩
          rw [hset] at hside
          simpa [setProposed] using hside

/-- Witness for C3's amended theorem: the single row of `dfC3` is matched by
`Full Path` = `"a"`, so the flush actually rewrites its `Proposed New Name`
from `"p"` to `"New"`, and the buffer is cleared. -/
theorem flush_amended_witness :
    (saveAllHandler dfC3 [(("a").data, ("New").data)]).2 = [] ∧
    (applyPendingChanges dfC3 [(("a").data, ("New").data)]).getD 0 default =
      setProposed (dfC3.getD 0 default) ("New").data ∧
    ((applyPendingChanges dfC3 [(("a").data, ("New").data)]).getD 0 default).proposedNewName
      = ("New").data := by
  refine ⟨(flush_amended dfC3 [(("a").data, ("New").data)] 0 (by decide)).1, ?_, ?_⟩
  · rw [(flush_amended dfC3 [(("a").data, ("New").data)] 0 (by decide)).2.2.1]
    decide
  · rw [(flush_amended dfC3 [(("a").data, ("New").data)] 0 (by decide)).2.2.1]
    decide

/-!  ## Remote file resolver (source lines 192-363), for C4, C5 and C9. -/

/-- A Drive file record as returned by `files().list` with
`fields="files(id, name, mimeType, webViewLink)"`. -/
structure DriveFile where
  id : Str
  name : Str
  mimeType : Option Str
  webViewLink : Option Str
deriving DecidableEq, Repr

/-- A Drive metadata record as returned by `files().get` with
`fields="mimeType, name, webViewLink"`; each field may be absent
(`meta.get(...)`). -/
structure FileMeta where
  mimeType : Option Str
  name : Option Str
  webViewLink : Option Str
deriving DecidableEq, Repr

/-- The remote Drive API, one method per query shape the script issues; every
call may raise (`Except.error`). -/
structure Oracle where
  listFolders : Str → Option Str → Except Unit (List DriveFile)
  listFilesInFolder : Str → Str → Except Unit (List DriveFile)
  getFileMeta : Str → Except Unit FileMeta
  downloadMedia : Str → Except Unit Str
  listByName : Str → Except Unit (List DriveFile)

/-- Python truthiness of an optional string (`if parent_id:`): `None` and the
empty string are falsy. -/
def truthyOpt : Option Str → Bool
  | none => false
  | some s => !s.isEmpty

/-- `find_folder_id` (lines 202-220): one `files().list` folder query whose
parent clause is added only when `parent_id` is truthy; any exception or empty
result list yields `None`. The `@st.cache_data(ttl=3600)` wrapper on it is
modelled separately by `cachedFindFolderId`; this is the wrapped body. -/
def find_folder_id (o : Oracle) (folderName : Str) (parentId : Option Str) :
    Option Str :=
  match o.listFolders folderName (if truthyOpt parentId then parentId else none) with
  | Except.error _ => none
  | Except.ok [] => none
  | Except.ok (f :: _) => some f.id

/-- `get_file_in_folder` (lines 222-240): one scoped `files().list` file query;
any exception or empty result yields `None`. -/
def get_file_in_folder (o : Oracle) (parentFolderId : Str) (filename : Str) :
    Option DriveFile :=
  match o.listFilesInFolder parentFolderId filename with
  | Except.error _ => none
  | Except.ok [] => none
  | Except.ok (f :: _) => some f

/-- `download_file_to_temp` (lines 242-261): metadata fetch then media
download, the whole body wrapped in one `try/except` returning four `None`s. -/
def download_file_to_temp (o : Oracle) (fileId : Str) (_fileNameHint : Str) :
    Option Str × Option Str × Option Str × Option Str :=
  match o.getFileMeta fileId with
  | Except.error _ => (none, none, none, none)
  | Except.ok meta =>
    match o.downloadMedia fileId with
    | Except.error _ => (none, none, none, none)
    | Except.ok tmpName => (some tmpName, meta.mimeType, meta.name, meta.webViewLink)

/-- The fixed base hierarchy of source line 272. -/
def base_segments : List Str :=
  [("Cog Culture Repository").data, ("Clients").data, ("Aarize Group").data]

/-- `raw_path.replace("\\", "/")` (single-character replace). -/
def normalizeSlashes (raw : Str) : Str :=
  raw.map (fun ch => if ch = '\\' then '/' else ch)

/-- Line 274: normalize, strip surrounding slashes, split on `/`, keep only
non-empty segments. -/
def pathSegments (raw : Str) : List Str :=
  (splitOnChar '/' (stripCharEnds '/' (normalizeSlashes raw))).filter
    (fun seg => !seg.isEmpty)

/-- Lines 277-283: the first index at which the lower-cased base hierarchy
occurs contiguously in the lower-cased segments, plus the base length. -/
def baseStartIdx (extra : List Str) : Option Nat :=
  let lowerExtra := extra.map lowerStr
  let baseLow := base_segments.map lowerStr
  ((List.range lowerExtra.length).find?
    (fun i => decide ((lowerExtra.drop i).take baseLow.length = baseLow))).map
    (fun i => i + baseLow.length)

/-- Line 285: drop the already-present base hierarchy prefix when found. -/
def effectiveSegments (raw : Str) : List Str :=
  let extra := pathSegments raw
  match baseStartIdx extra with
  | some s => extra.drop s
  | none => extra

/-- The base-hierarchy descent loop of lines 288-296, with its per-segment
retry at the root and its early `break` on a falsy parent. -/
def traverseBaseLoop (o : Oracle) : List Str → Option Str → Option Str
  | [], parentId => parentId
  | seg :: rest, parentId =>
    let found := find_folder_id o seg parentId
    let parentId2 := if !truthyOpt found then find_folder_id o seg none else found
    if !truthyOpt parentId2 then parentId2
    else traverseBaseLoop o rest parentId2

/-- The remaining-path descent loop of lines 302-307: each lookup is scoped to
the current parent; a missing segment breaks the loop keeping the last parent.
Also returns the list of `(segment, parent scope)` lookups performed. -/
def descendSegments (o : Oracle) : List Str → Option Str →
    Option Str × List (Str × Option Str)
  | [], parentId => (parentId, [])
  | seg :: rest, parentId =>
    let folderId := find_folder_id o seg parentId
    if truthyOpt folderId then
      ((descendSegments o rest folderId).1,
       (seg, parentId) :: (descendSegments o rest folderId).2)
    else (parentId, [(seg, parentId)])

/-- The 5-tuple a resolution produces (lines 312-316 and 360-361). -/
abbrev FileResult :=
  Option DriveFile × Option Str × Option Str × Option Str × Option Str

/-- The fully-negative resolution. -/
def negativeResult : FileResult := (none, none, none, none, none)

/-- The per-row session cache `st.session_state.file_cache`. -/
abbrev FileCache := List (Str × FileResult)

/-- Line 265: `cache_key = f"{row['Full Path']}_{row['Original Name']}"`. -/
def cacheKey (row : Row) : Str := row.fullPath ++ '_' :: row.originalName

/-- A found file plus its download attempt (lines 320-323 and analogues). -/
def attemptDownload (o : Oracle) (fm : DriveFile) (hint : Str) : FileResult :=
  let d := download_file_to_temp o fm.id hint
  (some fm, d.1, d.2.1, d.2.2.1, d.2.2.2)

/-- One unscoped fallback search (lines 325-340 and 342-358): only runs when no
file has been found yet; its whole body is inside `try/except: pass`. -/
def fallbackSearch (o : Oracle) (nameQuery : Str) (sofar : FileResult) :
    FileResult :=
  if sofar.1.isSome then sofar
  else
    match o.listByName nameQuery with
    | Except.error _ => sofar
    | Except.ok [] => sofar
    | Except.ok (fm :: _) => attemptDownload o fm nameQuery

/-- The body of `get_file_from_drive` after a cache miss (lines 271-361). -/
def resolveUncached (o : Oracle) (row : Row) : FileResult :=
  let file_path_segments := effectiveSegments row.fullPath
  let p0 := traverseBaseLoop o base_segments none
  let p1 := if !truthyOpt p0 then find_folder_id o (base_segments.headD []) none
            else p0
  let p2 := if truthyOpt p1 then (descendSegments o file_path_segments.dropLast p1).1
            else p1
  let filename_guess := file_path_segments.getLastD row.originalName
  let scopedResult : FileResult :=
    if truthyOpt p2 then
      match get_file_in_folder o (p2.getD []) filename_guess with
      | some fm => attemptDownload o fm filename_guess
      | none => negativeResult
    else negativeResult
  let withA := fallbackSearch o filename_guess scopedResult
  fallbackSearch o row.originalName withA

/-- `get_file_from_drive` (lines 263-363): cache check first, and the result
of a miss — positive or fully negative — is stored under the row key. -/
def get_file_from_drive (o : Oracle) (row : Row) (file_cache : FileCache) :
    FileResult × FileCache :=
  match lookupBy (cacheKey row) file_cache with
  | some res => (res, file_cache)
  | none =>
    (resolveUncached o row, (cacheKey row, resolveUncached o row) :: file_cache)

/-- C4: after one resolution of a row, a second resolution of the same row
returns exactly the stored tuple and leaves the cache unchanged — and it does
so for every oracle, i.e. without consulting the remote API at all, so the
remote-lookup body runs at most once per row key per session (negative results
included, since the miss branch caches whatever tuple it produced). -/
theorem resolver_second_call_cached (o o2 : Oracle) (row : Row)
    (c : FileCache) :
    get_file_from_drive o2 row (get_file_from_drive o row c).2 =
      ((get_file_from_drive o row c).1, (get_file_from_drive o row c).2) := by
  cases h : lookupBy (cacheKey row) c with
  | some res =>
    simp [get_file_from_drive, h]
  | none =>
    simp [get_file_from_drive, h, lookupBy]

/-- A remote API every one of whose calls raises. -/
structure OracleAllFail (o : Oracle) : Prop where
  folders : ∀ n p, o.listFolders n p = Except.error ()
  filesIn : ∀ p f, o.listFilesInFolder p f = Except.error ()
  fileMeta : ∀ i, o.getFileMeta i = Except.error ()
  media : ∀ i, o.downloadMedia i = Except.error ()
  byName : ∀ n, o.listByName n = Except.error ()

theorem find_folder_id_allFail (o : Oracle) (h : OracleAllFail o)
    (n : Str) (p : Option Str) : find_folder_id o n p = none := by
  rw [find_folder_id, h.folders]

theorem traverseBaseLoop_allFail (o : Oracle) (h : OracleAllFail o)
    (seg : Str) (rest : List Str) (p : Option Str) :
    traverseBaseLoop o (seg :: rest) p = none := by
  rw [traverseBaseLoop]
  simp [find_folder_id_allFail o h, truthyOpt]

theorem resolveUncached_allFail (o : Oracle) (h : OracleAllFail o) (row : Row) :
    resolveUncached o row = negativeResult := by
  rw [resolveUncached]
  rw [show base_segments = ("Cog Culture Repository").data ::
    [("Clients").data, ("Aarize Group").data] from rfl]
  rw [traverseBaseLoop_allFail o h]
  simp only [truthyOpt, Bool.not_false]
  rw [find_folder_id_allFail o h]
  simp [truthyOpt, fallbackSearch, h.byName, negativeResult]

/-- C5: the resolver is a total function of the oracle responses (every remote
call in its body sits under a `try/except`, so no exception propagates to the
caller), and when every remote lookup and download call fails it returns the
fully-negative tuple, which it also stores in the per-row cache; each helper
likewise degrades its own failures to a not-found value. -/
theorem resolver_degrades_failures (o : Oracle) (h : OracleAllFail o)
    (row : Row) (c : FileCache) (hc : lookupBy (cacheKey row) c = none) :
    get_file_from_drive o row c =
      (negativeResult, (cacheKey row, negativeResult) :: c) ∧
    (∀ fid hint, download_file_to_temp o fid hint = (none, none, none, none)) ∧
    (∀ n p, find_folder_id o n p = none) ∧
    (∀ pid f, get_file_in_folder o pid f = none) := by
  refine ⟨?_, ?_, find_folder_id_allFail o h, ?_⟩
  · rw [get_file_from_drive, hc, resolveUncached_allFail o h]
  · intro fid hint
    rw [download_file_to_temp, h.fileMeta]
  · intro pid f
    rw [get_file_in_folder, h.filesIn]

/-- The always-failing oracle, used to witness the failure-degradation
theorems at a concrete input. -/
def oracleFailW : Oracle :=
  ⟨fun _ _ => Except.error (), fun _ _ => Except.error (),
   fun _ => Except.error (), fun _ => Except.error (),
   fun _ => Except.error ()⟩

theorem oracleFailW_allFail : OracleAllFail oracleFailW :=
  ⟨fun _ _ => rfl, fun _ _ => rfl, fun _ => rfl, fun _ => rfl, fun _ => rfl⟩

/-- A concrete row for the resolver witnesses. -/
def rowW : Row :=
  { type := ("File").data,
    originalName := ("logo.png").data,
    proposedNewName := ("Brand_Campaign_Channel_Asset_Format_Version_Date").data,
    fullPath := ("Clients/Aarize Group/Campaigns/logo.png").data,
    createdDate := [], timestamp := [], action := [] }

/-- Witness for C5: with every remote call failing and an empty cache, the
resolver returns the fully-negative tuple and caches it under the row key. -/
theorem resolver_degrades_failures_witness :
    get_file_from_drive oracleFailW rowW [] =
      (negativeResult, [(cacheKey rowW, negativeResult)]) :=
  (resolver_degrades_failures oracleFailW oracleFailW_allFail rowW [] rfl).1

/-!  ## C9: scoped descent and the bounded-time folder-lookup cache. -/

/-- Stated from the spec's words: a lookup log is properly scoped when the
first lookup uses the given parent and each following lookup is scoped to the
folder the previous lookup resolved. -/
def ScopedDescentLog (o : Oracle) : Option Str → List (Str × Option Str) → Prop
  | _, [] => True
  | parent, (seg, par) :: rest =>
    par = parent ∧ ScopedDescentLog o (find_folder_id o seg par) rest

/-- The folder-lookup cache: keyed by `(folder_name, parent_id)` with the
stored value and its storage time in seconds. -/
abbrev FolderCache := List ((Str × Option Str) × (Option Str × Nat))

/-- Modelled from the spec: the `@st.cache_data(ttl=3600)` wrapper on
`find_folder_id` (source line 202) whose implementation lives in the external
UI framework. The underscore-prefixed `_drive_service` argument is excluded
from the cache key, so entries are keyed by `(folder_name, parent_id)` and are
served for 3600 seconds before being recomputed. -/
def cachedFindFolderId (o : Oracle) (cache : FolderCache) (now : Nat)
    (folderName : Str) (parentId : Option Str) : Option Str × FolderCache :=
  match lookupBy (folderName, parentId) cache with
  | some e =>
    if now < e.2 + 3600 then (e.1, cache)
    else (find_folder_id o folderName parentId,
          ((folderName, parentId), (find_folder_id o folderName parentId, now)) :: cache)
  | none =>
    (find_folder_id o folderName parentId,
     ((folderName, parentId), (find_folder_id o folderName parentId, now)) :: cache)

/-- The base-hierarchy traversal of lines 288-296, identical to
`traverseBaseLoop` but also returning the `(segment, parent scope)` pair of
every folder lookup it performs, in order — in particular the unscoped root
retry of line 292 logs a second pair `(segment, none)` for the same segment. -/
def traverseBaseLoopLog (o : Oracle) : List Str → Option Str →
    Option Str × List (Str × Option Str)
  | [], parentId => (parentId, [])
  | seg :: rest, parentId =>
    let found := find_folder_id o seg parentId
    let parentId2 := if !truthyOpt found then find_folder_id o seg none else found
    let entries := if !truthyOpt found then
        [(seg, parentId), (seg, (none : Option Str))]
      else [(seg, parentId)]
    if !truthyOpt parentId2 then (parentId2, entries)
    else ((traverseBaseLoopLog o rest parentId2).1,
          entries ++ (traverseBaseLoopLog o rest parentId2).2)

/-- The logged traversal computes exactly the parent that the resolver's
`traverseBaseLoop` computes. -/
theorem traverseBaseLoopLog_fst (o : Oracle) (segs : List Str)
    (p : Option Str) :
    (traverseBaseLoopLog o segs p).1 = traverseBaseLoop o segs p := by
  induction segs generalizing p with
  | nil => rfl
  | cons seg rest ih =>
    simp only [traverseBaseLoopLog, traverseBaseLoop]
    split_ifs <;> first | rfl | exact ih _

/-- Stated from the amended claim's words: during base-hierarchy descent each
segment is first looked up scoped to the current parent; when that lookup
comes back falsy the same segment is retried unscoped at the root; descent
continues with whichever folder was found and stops when both lookups fail. -/
def BaseRetryLog (o : Oracle) :
    List Str → Option Str → List (Str × Option Str) → Prop
  | [], _, log => log = []
  | seg :: rest, parent, log =>
    if truthyOpt (find_folder_id o seg parent) then
      ∃ log2, log = (seg, parent) :: log2 ∧
        BaseRetryLog o rest (find_folder_id o seg parent) log2
    else if truthyOpt (find_folder_id o seg none) then
      ∃ log2, log = (seg, parent) :: (seg, none) :: log2 ∧
        BaseRetryLog o rest (find_folder_id o seg none) log2
    else log = [(seg, parent), (seg, none)]

theorem traverseBaseLoopLog_spec (o : Oracle) (segs : List Str)
    (p : Option Str) :
    BaseRetryLog o segs p (traverseBaseLoopLog o segs p).2 := by
  induction segs generalizing p with
  | nil => rfl
  | cons seg rest ih =>
    cases hf : truthyOpt (find_folder_id o seg p) with
    | true =>
      have h1 : traverseBaseLoopLog o (seg :: rest) p =
          ((traverseBaseLoopLog o rest (find_folder_id o seg p)).1,
           (seg, p) :: (traverseBaseLoopLog o rest (find_folder_id o seg p)).2) := by
        simp [traverseBaseLoopLog, hf]
      rw [h1, BaseRetryLog, if_pos hf]
      exact ⟨_, rfl, ih _⟩
    | false =>
      cases hr : truthyOpt (find_folder_id o seg none) with
      | true =>
        have h1 : traverseBaseLoopLog o (seg :: rest) p =
            ((traverseBaseLoopLog o rest (find_folder_id o seg none)).1,
             (seg, p) :: (seg, none) ::
               (traverseBaseLoopLog o rest (find_folder_id o seg none)).2) := by
          simp [traverseBaseLoopLog, hf, hr]
        rw [h1, BaseRetryLog, if_neg (by simp [hf]), if_pos hr]
        exact ⟨_, rfl, ih _⟩
      | false =>
        have h1 : traverseBaseLoopLog o (seg :: rest) p =
            (find_folder_id o seg none, [(seg, p), (seg, none)]) := by
          simp [traverseBaseLoopLog, hf, hr]
        rw [h1, BaseRetryLog, if_neg (by simp [hf]), if_neg (by simp [hr])]

/-- A concrete oracle for the base-descent counterexample: the root base
folder resolves, `Clients` fails under it but succeeds unscoped at the root,
and `Aarize Group` resolves under that unscoped hit. -/
def oracleC9 : Oracle :=
  { listFolders := fun name parent =>
      if name = ("Cog Culture Repository").data ∧ parent = none then
        Except.ok [⟨("root1").data, ("Cog Culture Repository").data, none, none⟩]
      else if name = ("Clients").data ∧ parent = some ("root1").data then
        Except.ok []
      else if name = ("Clients").data ∧ parent = none then
        Except.ok [⟨("cX").data, ("Clients").data, none, none⟩]
      else if name = ("Aarize Group").data ∧ parent = some ("cX").data then
        Except.ok [⟨("a1").data, ("Aarize Group").data, none, none⟩]
      else Except.ok [],
    listFilesInFolder := fun _ _ => Except.ok [],
    getFileMeta := fun _ => Except.error (),
    downloadMedia := fun _ => Except.error (),
    listByName := fun _ => Except.ok [] }

/-- C9 counterexample: descending the fixed base hierarchy under `oracleC9`,
the loop's lookups are NOT one per segment each scoped to the previously
resolved folder: the lookup sequence is not an initial run of the base
segments (the segment `Clients` is looked up twice), and its third lookup is
`("Clients", none)` — unscoped at the root — even though the previous segment
resolved to the truthy folder `root1`, whose scoped `Clients` lookup had
returned `None`. -/
theorem base_descent_counterexample :
    (traverseBaseLoopLog oracleC9 base_segments none).2.map Prod.fst ≠
      base_segments.take (traverseBaseLoopLog oracleC9 base_segments none).2.length ∧
    (traverseBaseLoopLog oracleC9 base_segments none).2.getD 2 ([], none) =
      (("Clients").data, (none : Option Str)) ∧
    find_folder_id oracleC9 ("Cog Culture Repository").data none =
      some ("root1").data ∧
    find_folder_id oracleC9 ("Clients").data (some ("root1").data) = none := by
  decide

/-- C9, amended: during base-hierarchy descent each segment's lookup is first
scoped to the current parent, but a falsy result makes the loop retry the same
segment unscoped at the root and continue from whatever it finds (stopping
only when both lookups fail) — the logged loop computes exactly the resolver's
parent; only the remaining-path descent of lines 302-307 is strictly one
lookup per segment, each scoped to the folder resolved for the previous
segment, an initial run of its segment list. Folder lookups are cached by the
pair `(name, parent)` for a bounded 3600-second window — a fresh entry is
served without any remote call, an entry older than the window is recomputed,
a missing key is computed and stored, and storing under one key leaves every
other key's entry intact — in a structure separate from the per-row
`FileCache`. -/
theorem base_descent_amended (o : Oracle) (segs : List Str)
    (p : Option Str) (cache : FolderCache) (now : Nat) (folderName : Str)
    (parentId : Option Str) :
    (traverseBaseLoopLog o segs p).1 = traverseBaseLoop o segs p ∧
    BaseRetryLog o segs p (traverseBaseLoopLog o segs p).2 ∧
    ScopedDescentLog o p (descendSegments o segs p).2 ∧
    (descendSegments o segs p).2.map Prod.fst =
      segs.take (descendSegments o segs p).2.length ∧
    (∀ v t, lookupBy (folderName, parentId) cache = some (v, t) →
      now < t + 3600 →
      ∀ o2, cachedFindFolderId o2 cache now folderName parentId = (v, cache)) ∧
    (lookupBy (folderName, parentId) cache = none →
      cachedFindFolderId o cache now folderName parentId =
        (find_folder_id o folderName parentId,
         ((folderName, parentId), (find_folder_id o folderName parentId, now)) :: cache)) ∧
    (∀ v t, lookupBy (folderName, parentId) cache = some (v, t) →
      ¬ now < t + 3600 →
      cachedFindFolderId o cache now folderName parentId =
        (find_folder_id o folderName parentId,
         ((folderName, parentId), (find_folder_id o folderName parentId, now)) :: cache)) ∧
    (∀ key2 : Str × Option Str, key2 ≠ (folderName, parentId) →
      lookupBy key2
        (((folderName, parentId), (find_folder_id o folderName parentId, now)) :: cache)
        = lookupBy key2 cache) := by
  refine ⟨traverseBaseLoopLog_fst o segs p, traverseBaseLoopLog_spec o segs p,
    ?_, ?_, ?_, ?_, ?_, ?_⟩
  · induction segs generalizing p with
    | nil => trivial
    | cons seg rest ih =>
      rw [descendSegments]
      by_cases ht : truthyOpt (find_folder_id o seg p)
      · simp only [ht, if_true]
        exact ⟨rfl, ih (find_folder_id o seg p)⟩
      · simp only [ht, Bool.false_eq_true, if_false]
        exact ⟨rfl, trivial⟩
  · induction segs generalizing p with
    | nil => rfl
    | cons seg rest ih =>
      rw [descendSegments]
      by_cases ht : truthyOpt (find_folder_id o seg p)
      · simp only [ht, if_true, List.map_cons, List.length_cons, List.take_succ_cons]
        rw [ih (find_folder_id o seg p)]
      · simp [ht]
  · intro v t hl hfresh o2
    simp [cachedFindFolderId, hl, hfresh]
  · intro hl
    simp [cachedFindFolderId, hl]
  · intro v t hl hstale
    simp [cachedFindFolderId, hl, hstale]
  · intro key2 hne
    rw [lookupBy, if_neg (fun hh => hne hh.symm)]

/-- Witness for C9's amended theorem: a fresh cache entry for
`("Clients", none)` is served as-is (even by the failing oracle, so no remote
call is involved), and on the counterexample oracle the logged base loop
computes the same parent as the resolver's loop. -/
theorem base_descent_amended_witness :
    cachedFindFolderId oracleFailW
        [((("Clients").data, none), (some ("id1").data, 100))] 200
        ("Clients").data none
      = (some ("id1").data,
         [((("Clients").data, none), (some ("id1").data, 100))]) ∧
    (traverseBaseLoopLog oracleC9 base_segments none).1 =
      traverseBaseLoop oracleC9 base_segments none :=
  ⟨(base_descent_amended oracleFailW [] none
      [((("Clients").data, none), (some ("id1").data, 100))] 200
      ("Clients").data none).2.2.2.2.1 (some ("id1").data) 100 (by decide)
      (by decide) oracleFailW,
   (base_descent_amended oracleC9 base_segments none [] 0 [] none).1⟩

/-!  ## C6: the edit loop (source lines 529-546). -/

/-- The field list of source line 534 (same tokens as `placeholders`). -/
def fields : List Str :=
  [("Brand").data, ("Campaign").data, ("Channel").data, ("Asset").data,
   ("Format").data, ("Version").data, ("Date").data]

/-- Lines 530-532: split the current name on `_` and pad with empty strings to
at least 7 parts. -/
def padParts (parts : List Str) : List Str :=
  parts ++ List.replicate (7 - parts.length) []

/-- Line 538: `parts[i] if i < len(parts) else ""`, over the padded parts. -/
def partAt (currentName : Str) (i : Nat) : Str :=
  let parts := padParts (splitOnChar '_' currentName)
  if i < parts.length then parts.getD i [] else []

/-- Line 539: `current.strip().lower() == field.lower()` — the widget for the
field is editable exactly when this holds. -/
def isEditable (current field : Str) : Bool :=
  decide (lowerStr (stripStr current) = lowerStr field)

/-- Lines 537-544: one component per field, in the fixed field order; an
editable position takes the widget value `userInput i`, a locked position
passes the current part through unchanged. -/
def editedPartsAt (currentName : Str) (userInput : Nat → Str) : List Str :=
  (List.range fields.length).map (fun i =>
    let current := partAt currentName i
    if isEditable current (fields.getD i []) then userInput i else current)

/-- Line 546: `new_proposed = "_".join(edited_parts)`. -/
def new_proposed (currentName : Str) (userInput : Nat → Str) : Str :=
  joinWith '_' (editedPartsAt currentName userInput)

/-- Line 529: the name being edited is the pending entry for the row's
`Full Path` when present, else the stored `Proposed New Name`. -/
def currentNameFor (pending : Pending) (row : Row) : Str :=
  (lookupBy row.fullPath pending).getD row.proposedNewName

/-- C6 counterexample. First: with every segment a placeholder, a widget value
containing an underscore makes the candidate split into 8 fields, not 7.
Second: the segment `" brand"` is not case-insensitively equal to `"Brand"`
(so the claim calls it filled and locked), yet the code strips whitespace
first, treats it as editable, and the widget value replaces it. -/
theorem edit_loop_counterexample :
    (splitOnChar '_'
      (new_proposed ("Brand_Campaign_Channel_Asset_Format_Version_Date").data
        (fun i => if i = 0 then ("Ac_me").data else fields.getD i []))).length = 8 ∧
    lowerStr (" brand").data ≠ lowerStr ("Brand").data ∧
    (editedPartsAt (" brand_b_c_d_e_f_g").data (fun _ => ("Filled").data)).getD 0 []
      = ("Filled").data ∧
    partAt (" brand_b_c_d_e_f_g").data 0 = (" brand").data := by decide

theorem fields_length : fields.length = 7 := rfl

theorem editedPartsAt_length (cn : Str) (ui : Nat → Str) :
    (editedPartsAt cn ui).length = 7 := by
  rw [editedPartsAt, List.length_map, List.length_range, fields_length]

theorem padParts_length_ge (l : List Str) : 7 ≤ (padParts l).length := by
  rw [padParts, List.length_append, List.length_replicate]
  omega

theorem partAt_eq_getD (cn : Str) (i : Nat) (h : i < 7) :
    partAt cn i = (splitOnChar '_' cn).getD i [] := by
  rw [partAt]
  rw [if_pos (lt_of_lt_of_le h (padParts_length_ge _))]
  rw [padParts, getD_append_replicate]

/-- No padded part of a split contains an underscore. -/
theorem partAt_no_underscore (cn : Str) (i : Nat) : '_' ∉ partAt cn i := by
  rw [partAt]
  split
  · simp only [padParts]
    rcases getD_mem_or
      (splitOnChar '_' cn ++ List.replicate (7 - (splitOnChar '_' cn).length) [])
      i [] with h | h
    · rcases List.mem_append.mp h with h2 | h2
      · exact not_sep_mem_of_mem_splitOnChar '_' cn _ h2
      · rw [List.eq_of_mem_replicate h2]
        simp
    · rw [h]
      simp
  · simp

theorem editedPartsAt_getD (cn : Str) (ui : Nat → Str) (i : Nat) (h : i < 7) :
    (editedPartsAt cn ui).getD i [] =
      (if isEditable (partAt cn i) (fields.getD i []) then ui i
       else partAt cn i) := by
  rw [editedPartsAt, fields_length]
  interval_cases i <;> rfl

/-- C6, amended: the candidate is composed of exactly 7 components in the
fixed field order; a position whose current part does not, after stripping
surrounding whitespace, case-insensitively equal its own placeholder name is
locked and passes through to the candidate unchanged; an editable position
takes the widget value; and provided no widget value used for an editable
position contains an underscore, the candidate string splits into exactly 7
underscore-separated fields. -/
theorem edit_loop_invariant (cn : Str) (ui : Nat → Str)
    (hui : ∀ i, i < 7 →
      isEditable (partAt cn i) (fields.getD i []) = true → '_' ∉ ui i) :
    (editedPartsAt cn ui).length = 7 ∧
    (splitOnChar '_' (new_proposed cn ui)).length = 7 ∧
    (∀ i, i < 7 → isEditable (partAt cn i) (fields.getD i []) = false →
      (editedPartsAt cn ui).getD i [] = partAt cn i) ∧
    (∀ i, i < 7 → isEditable (partAt cn i) (fields.getD i []) = true →
      (editedPartsAt cn ui).getD i [] = ui i) := by
  have hfree : ∀ p ∈ editedPartsAt cn ui, '_' ∉ p := by
    intro p hp
    rw [editedPartsAt] at hp
    obtain ⟨i, hir, hpi⟩ := List.mem_map.mp hp
    have hi7 : i < 7 := by
      have := List.mem_range.mp hir
      rwa [fields_length] at this
    by_cases he : isEditable (partAt cn i) (fields.getD i []) = true
    · rw [← hpi]
      simp only [he, if_true]
      exact hui i hi7 he
    · rw [← hpi]
      simp only [he, if_false]
      exact partAt_no_underscore cn i
  refine ⟨editedPartsAt_length cn ui, ?_, ?_, ?_⟩
  · rw [new_proposed,
      splitOnChar_joinWith '_' (editedPartsAt cn ui)
        (by rw [← List.length_pos_iff_ne_nil, editedPartsAt_length]; omega) hfree,
      editedPartsAt_length]
  · intro i h hlock
    rw [editedPartsAt_getD cn ui i h, hlock]
    simp
  · intro i h hedit
    rw [editedPartsAt_getD cn ui i h, hedit]
    simp

/-- Witness for C6's amended theorem: the spec's own example — every segment a
placeholder, `Brand` edited to `Acme` — yields 7 components splitting into 7
fields, with position 0 taking the widget value. -/
theorem edit_loop_invariant_witness :
    (editedPartsAt ("Brand_Campaign_Channel_Asset_Format_Version_Date").data
        (fun i => if i = 0 then ("Acme").data else fields.getD i [])).length = 7 ∧
    (splitOnChar '_'
      (new_proposed ("Brand_Campaign_Channel_Asset_Format_Version_Date").data
        (fun i => if i = 0 then ("Acme").data else fields.getD i []))).length = 7 :=
  ⟨(edit_loop_invariant ("Brand_Campaign_Channel_Asset_Format_Version_Date").data
      (fun i => if i = 0 then ("Acme").data else fields.getD i [])
      (by decide)).1,
   (edit_loop_invariant ("Brand_Campaign_Channel_Asset_Format_Version_Date").data
      (fun i => if i = 0 then ("Acme").data else fields.getD i [])
      (by decide)).2.1⟩

end RenameValidator
